import Mathlib

/-!
Verification of the remote subnet-manager client (`remote/client.go`).

The development shallowly embeds the client:
* the Go standard-library path machinery (`strings.Join`, `path.Clean`,
  `path.Join`) that `mkurl` relies on, translated byte-for-byte from the
  Go sources as functions on `List Char` / `String`;
* `mkurl` and the four protocol operations (`GetNetworkConfig`,
  `AcquireLease`, `RenewLease`, `WatchLeases`) as pure functions over an
  oracle environment supplying the external collaborators (HTTP transport
  and JSON serialization), recording the HTTP requests each call issues
  and whether the response body was closed;
* `httpError`, the non-200 error synthesizer;
* a small-step interleaving semantics for `httpDo`'s goroutine / channel /
  select protocol.
-/

namespace Flannel

/-! ## Go `strings.Join` -/

/-- Go `strings.Join(a, sep)`: elements of `a` concatenated with `sep`
between consecutive elements. -/
def stringsJoin (sep : String) : List String → String
  | [] => ""
  | [x] => x
  | x :: xs => x ++ sep ++ stringsJoin sep xs

/-! ## Go `path.Clean`

Translated from the Go standard library (`path/path.go`).  The output
buffer (Go's `lazybuf` with write index `w`) is represented by the list
of characters written so far. -/

/-- The backtracking loop of `path.Clean`'s `..` case:
`for out.w > dotdot && out.index(out.w) != '/' { out.w-- }`, starting
from the current write index `w` and returning the final write index. -/
def btw (buf : List Char) (dotdot : Nat) : Nat → Nat
  | 0 => 0
  | w + 1 =>
    if dotdot < w + 1 ∧ buf.getD (w + 1) '/' ≠ '/' then btw buf dotdot w
    else w + 1

/-- One-at-a-time length bound used for the termination of `cleanLoop`. -/
theorem length_dropWhile_le (p : Char → Bool) (l : List Char) :
    (l.dropWhile p).length ≤ l.length := by
  induction l with
  | nil => simp [List.dropWhile]
  | cons c t ih =>
    by_cases h : p c
    · simpa [List.dropWhile_cons_of_pos h] using Nat.le_succ_of_le ih
    · simp [List.dropWhile_cons_of_neg h]

/-- The main loop of Go `path.Clean` (`for r < n { ... }`), reading the
remaining input `r`, with output buffer `out` and the `dotdot` barrier.
Go's byte tests `path[r] == '/'`, the `.` / `..` element tests with their
end-of-string lookahead, and the real-element copy loop are translated
case for case. -/
def cleanLoop (rooted : Bool) (r : List Char) (out : List Char) (dotdot : Nat) :
    List Char :=
  match r with
  | [] => out
  | c :: rest =>
    if hc : c = '/' then
      -- empty path element
      cleanLoop rooted rest out dotdot
    else if hd : c = '.' ∧ (rest = [] ∨ rest.head? = some '/') then
      -- `.` element
      cleanLoop rooted rest out dotdot
    else if hdd : c = '.' ∧ rest.head? = some '.' ∧
        (rest.tail = [] ∨ rest.tail.head? = some '/') then
      -- `..` element: remove to last '/'
      if dotdot < out.length then
        -- can backtrack
        cleanLoop rooted rest.tail (out.take (btw out dotdot (out.length - 1))) dotdot
      else if rooted = false then
        -- cannot backtrack, but not rooted, so append `..` element
        cleanLoop rooted rest.tail
          ((if 0 < out.length then out ++ ['/'] else out) ++ ['.', '.'])
          ((if 0 < out.length then out ++ ['/'] else out) ++ ['.', '.']).length
      else
        cleanLoop rooted rest.tail out dotdot
    else
      -- real path element: add '/' if needed, then copy the element
      cleanLoop rooted ((c :: rest).dropWhile (fun x => x ≠ '/'))
        ((if (rooted ∧ out.length ≠ 1) ∨ (¬ rooted ∧ out.length ≠ 0)
            then out ++ ['/'] else out) ++
          (c :: rest).takeWhile (fun x => x ≠ '/'))
        dotdot
termination_by r.length
decreasing_by
  · simp
  · simp
  · simp [List.length_tail]; omega
  · simp [List.length_tail]; omega
  · simp [List.length_tail]; omega
  · have h1 : ((c :: rest).dropWhile (fun x => x ≠ '/')) =
        rest.dropWhile (fun x => x ≠ '/') := by
      simp [List.dropWhile_cons, hc]
    have h2 := length_dropWhile_le (fun x => x ≠ '/') rest
    rw [h1]
    simpa using Nat.lt_succ_of_le h2

/-- Go `path.Clean(path)`. -/
def pathClean (p : String) : String :=
  if p = "" then "."
  else
    let chars := p.data
    let rooted := chars.head? = some '/'
    let out :=
      if rooted then cleanLoop true chars.tail ['/'] 1
      else cleanLoop false chars [] 0
    if out.length = 0 then "." else String.mk out

/-! ## Go `path.Join` -/

/-- Go `path.Join(elem...)`: skip leading empty elements; if all elements
are empty return `""`, otherwise `Clean(strings.Join(elem[i:], "/"))`
starting at the first non-empty element. -/
def pathJoin (elem : List String) : String :=
  match elem.dropWhile (fun e => e = "") with
  | [] => ""
  | rest@(_ :: _) => pathClean (stringsJoin "/" rest)

-- sanity checks of the embedding on concrete inputs
example : pathClean "/foo/leases/" = "/foo/leases" := by
  simp [pathClean, cleanLoop, btw]
example : pathJoin ["/foo", "leases/"] = "/foo/leases" := by
  simp [pathJoin, stringsJoin, pathClean, cleanLoop, btw, List.dropWhile]
example : pathJoin ["/_", "config"] = "/_/config" := by
  simp [pathJoin, stringsJoin, pathClean, cleanLoop, btw, List.dropWhile]
example : pathJoin ["/", "config"] = "/config" := by
  simp [pathJoin, stringsJoin, pathClean, cleanLoop, btw, List.dropWhile]

/-! ## Data model -/

/-- The remote manager: an opaque base address fixed at construction
(`RemoteManager` in `client.go`). -/
structure RemoteManager where
  base : String
deriving DecidableEq

/-- `NewRemoteManager(listenAddr)` from `client.go`. -/
def NewRemoteManager (listenAddr : String) : RemoteManager :=
  ⟨"http://" ++ listenAddr ++ "/v1"⟩

/-- `mkurl` from `client.go`: empty network becomes the sentinel `"/_"`,
a network not starting with `'/'` gets one prepended, and the result is
`base + path.Join(network :: parts)`. -/
def mkurl (m : RemoteManager) (network : String) (parts : List String) : String :=
  let network1 := if network = "" then "/_" else network
  let network2 := if network1.data.head? = some '/' then network1 else "/" ++ network1
  m.base ++ pathJoin (network2 :: parts)

/-- A Go dynamic (`interface\x7b\x7d`) value, as used for the watch
cursor: `nil`, a string, or some value of any other dynamic type. -/
inductive GoVal where
  | nil : GoVal
  | str (s : String) : GoVal
  | num (n : Int) : GoVal
  | boolean (b : Bool) : GoVal
deriving DecidableEq

/-- Modelled from the spec: `subnet.Config` (the `NetworkConfig` blob) is
round-tripped opaquely; the scenario in the spec gives it a `Network`
field.  The `subnet` package itself is not part of the sources. -/
structure Config where
  Network : String
deriving DecidableEq

/-- Modelled from the spec: `subnet.LeaseAttrs` carries caller-supplied
attributes, e.g. a requested public IP and node metadata. -/
structure LeaseAttrs where
  PublicIP : String
  Meta : String
deriving DecidableEq

/-- Modelled from the spec: `subnet.Lease` is a record with a stable
identifying key plus lease metadata (assigned subnet, expiry, attrs). -/
structure Lease where
  Subnet : String
  Expiration : Nat
  Attrs : LeaseAttrs
deriving DecidableEq

/-- Modelled from the spec: the lease's stable identifying key
(`lease.Key()` in `client.go`). -/
def Lease.Key (l : Lease) : String := l.Subnet

/-- Modelled from the spec: `subnet.WatchResult` is an opaque payload
(snapshot or incremental events) plus a new `Cursor`, whose dynamic type
is unconstrained on the wire. -/
structure WatchResult where
  Cursor : GoVal
  Payload : String
deriving DecidableEq

/-- The Go zero value `subnet.WatchResult\x7b\x7d`: a nil cursor and an
empty payload. -/
def emptyWatchResult : WatchResult := ⟨GoVal.nil, ""⟩

/-! ## Transport and serialization collaborators -/

/-- An HTTP request as assembled by `httpGet` / `httpPutPost`: method,
URL, optional `Content-Type` header, optional body. -/
structure HttpRequest where
  method : String
  url : String
  contentType : Option String
  body : Option String
deriving DecidableEq

/-- An HTTP response: status code, status line, body text, and whether
eagerly reading the body fails (`ioutil.ReadAll` error). -/
structure HttpResponse where
  statusCode : Nat
  status : String
  body : String
  bodyReadErr : Option String
deriving DecidableEq

/-- The external collaborators of one client call: the abortable HTTP
transport (`httpDo` and its wrappers) and the JSON codec.  Each oracle
gives the outcome the collaborator would produce. -/
structure Env where
  transport : HttpRequest → Except String HttpResponse
  marshalAttrs : LeaseAttrs → Except String String
  marshalLease : Lease → Except String String
  decodeConfig : String → Except String Config
  decodeLease : String → Except String Lease
  decodeWatchResult : String → Except String WatchResult

/-- `httpError(resp)` from `client.go`: read the whole body; if the read
fails return that failure, otherwise `fmt.Errorf("%v: %v", resp.Status,
body)`. -/
def httpError (resp : HttpResponse) : String :=
  match resp.bodyReadErr with
  | some e => e
  | none => resp.status ++ ": " ++ resp.body

/-- Observable outcome of one client operation: the HTTP requests it
issued (in order), whether the response body was closed before returning
(`none` when no response was obtained), the value left in the caller's
result position, and the returned error. -/
structure OpOut (α : Type) where
  reqs : List HttpRequest := []
  closed : Option Bool := none
  value : α
  err : Option String := none

/-! ## The four protocol operations, translated from `client.go`.
Each `match` on an `Env` oracle is the call into the corresponding
collaborator; `closed := some true` marks the `defer resp.Body.Close()`
return paths. -/

/-- `GetNetworkConfig` from `client.go`. -/
def GetNetworkConfig (m : RemoteManager) (env : Env) (network : String) :
    OpOut (Option Config) :=
  let url := mkurl m network ["config"]
  let req : HttpRequest := ⟨"GET", url, none, none⟩
  match env.transport req with
  | .error e => { reqs := [req], value := none, err := some e }
  | .ok resp =>
    if resp.statusCode ≠ 200 then
      { reqs := [req], closed := some true, value := none,
        err := some (httpError resp) }
    else
      match env.decodeConfig resp.body with
      | .error e =>
        { reqs := [req], closed := some true, value := none, err := some e }
      | .ok config =>
        { reqs := [req], closed := some true, value := some config }

/-- `AcquireLease` from `client.go`. -/
def AcquireLease (m : RemoteManager) (env : Env) (network : String)
    (attrs : LeaseAttrs) : OpOut (Option Lease) :=
  let url := mkurl m network ["leases/"]
  match env.marshalAttrs attrs with
  | .error e => { value := none, err := some e }
  | .ok body =>
    let req : HttpRequest := ⟨"POST", url, some "application/json", some body⟩
    match env.transport req with
    | .error e => { reqs := [req], value := none, err := some e }
    | .ok resp =>
      if resp.statusCode ≠ 200 then
        { reqs := [req], closed := some true, value := none,
          err := some (httpError resp) }
      else
        match env.decodeLease resp.body with
        | .error e =>
          { reqs := [req], closed := some true, value := none, err := some e }
        | .ok newLease =>
          { reqs := [req], closed := some true, value := some newLease }

/-- `RenewLease` from `client.go`.  `value` models the contents of the
caller-owned lease record after the call: Go's `*lease = *newLease`
overwrites the whole struct on success, and every error path returns
with the record untouched. -/
def RenewLease (m : RemoteManager) (env : Env) (network : String)
    (lease : Lease) : OpOut Lease :=
  let url := mkurl m network ["leases", lease.Key]
  match env.marshalLease lease with
  | .error e => { value := lease, err := some e }
  | .ok body =>
    let req : HttpRequest := ⟨"PUT", url, some "application/json", some body⟩
    match env.transport req with
    | .error e => { reqs := [req], value := lease, err := some e }
    | .ok resp =>
      if resp.statusCode ≠ 200 then
        { reqs := [req], closed := some true, value := lease,
          err := some (httpError resp) }
      else
        match env.decodeLease resp.body with
        | .error e =>
          { reqs := [req], closed := some true, value := lease, err := some e }
        | .ok newLease =>
          { reqs := [req], closed := some true, value := newLease }

/-- The part of `WatchLeases` after the cursor check: issue the GET and
interpret status, body and the returned cursor's dynamic type. -/
def WatchLeasesFetch (env : Env) (url : String) : OpOut WatchResult :=
  let req : HttpRequest := ⟨"GET", url, none, none⟩
  match env.transport req with
  | .error e => { reqs := [req], value := emptyWatchResult, err := some e }
  | .ok resp =>
    if resp.statusCode ≠ 200 then
      { reqs := [req], closed := some false, value := emptyWatchResult,
        err := some (httpError resp) }
    else
      match env.decodeWatchResult resp.body with
      | .error e =>
        { reqs := [req], closed := some false, value := emptyWatchResult,
          err := some e }
      | .ok wr =>
        match wr.Cursor with
        | .str _ => { reqs := [req], closed := some false, value := wr }
        | _ =>
          { reqs := [req], closed := some false, value := emptyWatchResult,
            err := some "lease watch returned non-string cursor" }

/-- `WatchLeases` from `client.go`.  The cursor is a dynamic value that
must be nil or a string; no `defer resp.Body.Close()` appears in the Go
source, so every path that obtained a response records
`closed := some false`. -/
def WatchLeases (m : RemoteManager) (env : Env) (network : String)
    (cursor : GoVal) : OpOut WatchResult :=
  let url := mkurl m network ["leases"]
  match cursor with
  | .nil => WatchLeasesFetch env url
  | .str c => WatchLeasesFetch env (url ++ "?next=" ++ c)
  | _ =>
    { value := emptyWatchResult,
      err := some "internal error: RemoteManager.WatchLeases received non-string cursor" }

/-! ## `httpDo`: goroutine / channel / select interleaving semantics

`httpDo` starts `client.Do(req)` in a goroutine that sends its result on
a buffered channel `c` of capacity 1, then `select`s between `ctx.Done()`
and `c`.  The model below is a small-step transition system whose atomic
actions are: the context becoming done, the goroutine delivering the
transport result to the channel, and the main routine executing either
select branch or the post-cancel drain.  Go's `select` chooses any ready
case, so when both channels are ready both select actions are enabled.
The transport result is abstracted to a `Nat` parameter `r`. -/

/-- What `httpDo` returns: the cancellation's own error `ctx.Err()`, or
the transport call's result (`r.resp, r.err` as one abstract value). -/
inductive HRes where
  | ctxErr : HRes
  | opRes (v : Nat) : HRes
deriving DecidableEq

/-- Control state of the main routine of `httpDo`: at the `select`,
draining `c` after cancellation (`tr.CancelRequest` already issued), or
returned with a result. -/
inductive HMain where
  | sel : HMain
  | draining : HMain
  | done (res : HRes) : HMain
deriving DecidableEq

/-- A global state of one `httpDo` call: whether `ctx.Done()` has fired,
whether the goroutine has executed its send `c <- httpRespErr{resp, err}`
(after which it has finished), the channel content, and the main
routine's control state. -/
structure HSt where
  ctxDone : Bool
  sent : Bool
  chan : Option Nat
  main : HMain
deriving DecidableEq

/-- Initial state: context not yet done, goroutine still inside
`client.Do`, channel empty, main routine at the `select`. -/
def hInit : HSt := ⟨false, false, none, HMain.sel⟩

/-- The atomic actions of the interleaving: external cancellation, the
goroutine's channel send, and the main routine's three possible moves. -/
inductive HAct where
  | cancel : HAct
  | gsend : HAct
  | selectCancel : HAct
  | drain : HAct
  | selectRecv : HAct
deriving DecidableEq

/-- One atomic step; `none` when the action is not enabled in `s`.
`selectCancel` needs `ctx.Done()` ready, `selectRecv` needs a value in
the channel (Go picks either when both are ready), and `drain` is the
blocking `<-c` after `tr.CancelRequest(req)`. -/
def hStep (r : Nat) (a : HAct) (s : HSt) : Option HSt :=
  match a with
  | .cancel => if s.ctxDone then none else some { s with ctxDone := true }
  | .gsend => if s.sent then none else some { s with sent := true, chan := some r }
  | .selectCancel =>
    match s.main with
    | .sel => if s.ctxDone then some { s with main := HMain.draining } else none
    | _ => none
  | .drain =>
    match s.main, s.chan with
    | .draining, some _ => some { s with chan := none, main := HMain.done HRes.ctxErr }
    | _, _ => none
  | .selectRecv =>
    match s.main, s.chan with
    | .sel, some v => some { s with chan := none, main := HMain.done (HRes.opRes v) }
    | _, _ => none

/-- Run a whole interleaving: `none` if some action was not enabled. -/
def hRun (r : Nat) : List HAct → HSt → Option HSt
  | [], s => some s
  | a :: t, s => (hStep r a s).bind (hRun r t)

/-- The trace contains a cancellation strictly before the goroutine's
send: the first of \x7bcancel, gsend\x7d to occur is `cancel`, and
`gsend` occurs later. -/
def cancelThenSendB : List HAct → Bool
  | [] => false
  | .cancel :: t => t.contains HAct.gsend
  | .gsend :: _ => false
  | _ :: t => cancelThenSendB t

/-- The main routine reaches its `select` before the goroutine has
delivered the transport result: the first of \x7bselectCancel,
selectRecv, gsend\x7d to occur in the trace is a select action. -/
def selectBeforeSendB : List HAct → Bool
  | [] => false
  | .gsend :: _ => false
  | .selectCancel :: _ => true
  | .selectRecv :: _ => true
  | _ :: t => selectBeforeSendB t

-- sanity checks of the embedding on concrete inputs
example : hRun 7 [HAct.cancel, HAct.gsend, HAct.selectRecv] hInit =
    some ⟨true, true, none, HMain.done (HRes.opRes 7)⟩ := by decide
example : hRun 7 [HAct.cancel, HAct.selectCancel, HAct.gsend, HAct.drain] hInit =
    some ⟨true, true, none, HMain.done HRes.ctxErr⟩ := by decide
example : cancelThenSendB [HAct.cancel, HAct.gsend, HAct.selectRecv] = true := by decide

/-! ## Helper lemmas -/

theorem slash_append_data (n : String) : ("/" ++ n).data = '/' :: n.data := by
  rw [String.data_append]
  rfl

theorem slash_append_ne_empty (n : String) : ("/" ++ n) ≠ "" := by
  intro h
  have := congrArg String.data h
  rw [slash_append_data] at this
  simp at this

/-! ## Claims -/

/-- C3: the address builder maps the empty network identifier to the
sentinel segment `_`: `mkurl "" parts = mkurl "_" parts` for every
trailing-segment list, and `GetNetworkConfig` on network `""` issues its
GET to `{base}/_/config`. -/
theorem mkurl_empty_network_sentinel (m : RemoteManager) (parts : List String)
    (env : Env) :
    mkurl m "" parts = mkurl m "_" parts ∧
    (GetNetworkConfig m env "").reqs =
      [⟨"GET", m.base ++ "/_/config", none, none⟩] := by
  have hs : ("/" ++ "_" : String) = "/_" := by decide
  have h1 : mkurl m "" parts = mkurl m "_" parts := by
    simp [mkurl, hs]
  refine ⟨h1, ?_⟩
  have hurl : mkurl m "" ["config"] = m.base ++ "/_/config" := by
    simp [mkurl, pathJoin, stringsJoin, pathClean, cleanLoop, btw, List.dropWhile]
  simp only [GetNetworkConfig, hurl]
  cases h : env.transport ⟨"GET", m.base ++ "/_/config", none, none⟩ with
  | error e => simp
  | ok resp =>
    by_cases hsc : resp.statusCode ≠ 200 <;>
      cases hd : env.decodeConfig resp.body <;> simp [hsc, hd]

/-- C4 as stated is false: it quantifies over every network identifier
that does not start with `'/'`, which includes the empty identifier, and
`mkurl` sends `""` to the sentinel path `/_/...` while `"/" ++ "" = "/"`
yields `/...`. -/
theorem mkurl_slash_idempotent_cex :
    ¬ (∀ (m : RemoteManager) (network : String) (parts : List String),
        network.data.head? ≠ some '/' →
        mkurl m network parts = mkurl m ("/" ++ network) parts) := by
  intro h
  have h0 := h ⟨""⟩ "" ["config"] (by decide)
  have h1 : mkurl ⟨""⟩ "" ["config"] = "/_/config" := by
    simp [mkurl, pathJoin, stringsJoin, pathClean, cleanLoop, btw, List.dropWhile]
  have h2 : mkurl ⟨""⟩ ("/" ++ "") ["config"] = "/config" := by
    simp [mkurl, pathJoin, stringsJoin, pathClean, cleanLoop, btw, List.dropWhile]
  rw [h1, h2] at h0
  exact absurd h0 (by decide)

/-- C4 (amended): for every NON-EMPTY network identifier `n` that does
not start with `'/'`, and every trailing-segment list,
`mkurl n parts = mkurl ("/" ++ n) parts`. -/
theorem mkurl_slash_idempotent (m : RemoteManager) (network : String)
    (parts : List String) (hne : network ≠ "")
    (hh : network.data.head? ≠ some '/') :
    mkurl m network parts = mkurl m ("/" ++ network) parts := by
  simp [mkurl, hne, slash_append_ne_empty network, slash_append_data, hh]

/-- Witness for `mkurl_slash_idempotent` at a concrete input. -/
theorem mkurl_slash_idempotent_witness :
    mkurl ⟨"http://h/v1"⟩ "foo" ["config"] =
      mkurl ⟨"http://h/v1"⟩ ("/" ++ "foo") ["config"] :=
  mkurl_slash_idempotent ⟨"http://h/v1"⟩ "foo" ["config"] (by decide) (by decide)

/-! Concrete sample values used by the witnesses. -/

def attrs0 : LeaseAttrs := ⟨"1.2.3.4", "node-a"⟩

def lease0 : Lease := ⟨"10.5.0.0-24", 100, attrs0⟩

def lease1 : Lease := ⟨"10.5.16.0-24", 200, ⟨"5.6.7.8", "node-b"⟩⟩

def cfg0 : Config := ⟨"10.0.0.0/16"⟩

def wrGood : WatchResult := ⟨GoVal.str "xyz", "events"⟩

def wrBad : WatchResult := ⟨GoVal.num 42, "events"⟩

def resp404 : HttpResponse := ⟨404, "404 Not Found", "no such network", none⟩

def resp200 (body : String) : HttpResponse := ⟨200, "200 OK", body, none⟩

/-- An environment whose collaborators give fixed answers, used to
instantiate theorems at concrete inputs. -/
def constEnv (tr : Except String HttpResponse) (cfg : Except String Config)
    (ls : Except String Lease) (w : Except String WatchResult) : Env :=
  { transport := fun _ => tr
    marshalAttrs := fun _ => Except.ok "AT"
    marshalLease := fun _ => Except.ok "LE"
    decodeConfig := fun _ => cfg
    decodeLease := fun _ => ls
    decodeWatchResult := fun _ => w }

/-- Environment for witnesses: every call gets a 200 response whose body
decodes to `lease1` / `cfg0` / `wrGood`. -/
def envOk : Env :=
  constEnv (Except.ok (resp200 "l")) (Except.ok cfg0) (Except.ok lease1)
    (Except.ok wrGood)

/-- Environment for witnesses: 200 responses but the decoded watch
result carries the non-string cursor `42`. -/
def envBadCursor : Env :=
  constEnv (Except.ok (resp200 "w")) (Except.ok cfg0) (Except.ok lease1)
    (Except.ok wrBad)

/-- Environment for witnesses: every transport call yields the 404
response. -/
def env404 : Env :=
  constEnv (Except.ok resp404) (Except.ok cfg0) (Except.ok lease1)
    (Except.ok wrGood)

/-- Environment for witnesses: the transport fails outright. -/
def envDown : Env :=
  constEnv (Except.error "connection refused") (Except.ok cfg0)
    (Except.ok lease1) (Except.ok wrGood)

/-- C5: a watch cursor that is neither nil nor a string makes
`WatchLeases` fail immediately with the internal error and the empty
`WatchResult`, issuing no HTTP request at all. -/
theorem WatchLeases_rejects_bad_cursor (m : RemoteManager) (env : Env)
    (network : String) (cursor : GoVal) (hnil : cursor ≠ GoVal.nil)
    (hstr : ∀ s, cursor ≠ GoVal.str s) :
    (WatchLeases m env network cursor).reqs = [] ∧
    (WatchLeases m env network cursor).err =
      some "internal error: RemoteManager.WatchLeases received non-string cursor" ∧
    (WatchLeases m env network cursor).value = emptyWatchResult := by
  cases cursor with
  | nil => exact absurd rfl hnil
  | str s => exact absurd rfl (hstr s)
  | num n => simp [WatchLeases]
  | boolean b => simp [WatchLeases]

/-- Witness for `WatchLeases_rejects_bad_cursor`: the integer cursor 42. -/
theorem WatchLeases_rejects_bad_cursor_witness :
    (WatchLeases ⟨"http://h/v1"⟩ envOk "foo" (GoVal.num 42)).reqs = [] ∧
    (WatchLeases ⟨"http://h/v1"⟩ envOk "foo" (GoVal.num 42)).err =
      some "internal error: RemoteManager.WatchLeases received non-string cursor" ∧
    (WatchLeases ⟨"http://h/v1"⟩ envOk "foo" (GoVal.num 42)).value =
      emptyWatchResult :=
  WatchLeases_rejects_bad_cursor _ _ _ _ (fun h => GoVal.noConfusion h)
    (fun _ h => GoVal.noConfusion h)

/-- C6: when the HTTP status is 200 and the body decodes into a
`WatchResult` whose cursor is not a string, `WatchLeases` returns the
protocol error and the empty `WatchResult` instead of the decoded one. -/
theorem WatchLeases_nonstring_result_cursor (m : RemoteManager) (env : Env)
    (network : String) (cursor : GoVal) (resp : HttpResponse) (wr : WatchResult)
    (hcur : cursor = GoVal.nil ∨ ∃ s, cursor = GoVal.str s)
    (ht : ∀ q, env.transport q = Except.ok resp)
    (h200 : resp.statusCode = 200)
    (hdec : env.decodeWatchResult resp.body = Except.ok wr)
    (hns : ∀ s, wr.Cursor ≠ GoVal.str s) :
    (WatchLeases m env network cursor).err =
      some "lease watch returned non-string cursor" ∧
    (WatchLeases m env network cursor).value = emptyWatchResult := by
  have hfetch : ∀ url, (WatchLeasesFetch env url).err =
      some "lease watch returned non-string cursor" ∧
      (WatchLeasesFetch env url).value = emptyWatchResult := by
    intro url
    have hcursor : wr.Cursor = GoVal.nil ∨ (∃ n, wr.Cursor = GoVal.num n) ∨
        ∃ b, wr.Cursor = GoVal.boolean b := by
      cases h : wr.Cursor with
      | nil => exact Or.inl rfl
      | str s => exact absurd h (hns s)
      | num n => exact Or.inr (Or.inl ⟨n, rfl⟩)
      | boolean b => exact Or.inr (Or.inr ⟨b, rfl⟩)
    rcases hcursor with h | ⟨n, h⟩ | ⟨b, h⟩ <;>
      simp [WatchLeasesFetch, ht, h200, hdec, h]
  rcases hcur with h | ⟨s, h⟩ <;> subst h <;> simp [WatchLeases, hfetch]

/-- Witness for `WatchLeases_nonstring_result_cursor`: a 200 response
whose decoded cursor is the integer 42. -/
theorem WatchLeases_nonstring_result_cursor_witness :
    (WatchLeases ⟨"http://h/v1"⟩ envBadCursor "foo" (GoVal.str "abc123")).err =
      some "lease watch returned non-string cursor" ∧
    (WatchLeases ⟨"http://h/v1"⟩ envBadCursor "foo" (GoVal.str "abc123")).value =
      emptyWatchResult :=
  WatchLeases_nonstring_result_cursor _ _ _ _ (resp200 "w") wrBad
    (Or.inr ⟨"abc123", rfl⟩) (fun _ => rfl) rfl rfl
    (fun _ h => by simp [wrBad] at h)

/-- C7: `RenewLease` is atomic for the caller's lease record: on any
error the record is left exactly as it was, and on success the whole
record is overwritten with the decoded server response. -/
theorem RenewLease_atomic (m : RemoteManager) (env : Env) (network : String)
    (lease : Lease) :
    ((RenewLease m env network lease).err ≠ none →
      (RenewLease m env network lease).value = lease) ∧
    (∀ resp nl b, env.marshalLease lease = Except.ok b →
      (∀ q, env.transport q = Except.ok resp) → resp.statusCode = 200 →
      env.decodeLease resp.body = Except.ok nl →
      (RenewLease m env network lease).err = none ∧
      (RenewLease m env network lease).value = nl) := by
  constructor
  · intro herr
    cases hm : env.marshalLease lease with
    | error e => simp [RenewLease, hm]
    | ok body =>
      cases htr : env.transport ⟨"PUT", mkurl m network ["leases", lease.Key],
          some "application/json", some body⟩ with
      | error e => simp [RenewLease, hm, htr]
      | ok resp =>
        by_cases hsc : resp.statusCode ≠ 200
        · simp [RenewLease, hm, htr, hsc]
        · cases hd : env.decodeLease resp.body with
          | error e => simp [RenewLease, hm, htr, hsc, hd]
          | ok nl =>
            exact absurd (by simp [RenewLease, hm, htr, hsc, hd]) herr
  · intro resp nl b hm ht h200 hd
    simp [RenewLease, hm, ht, h200, hd]

/-- Witness for `RenewLease_atomic`: a 200 response decoding to
`lease1` overwrites `lease0` and returns no error. -/
theorem RenewLease_atomic_witness :
    (RenewLease ⟨"http://h/v1"⟩ envOk "foo" lease0).err = none ∧
    (RenewLease ⟨"http://h/v1"⟩ envOk "foo" lease0).value = lease1 :=
  (RenewLease_atomic ⟨"http://h/v1"⟩ envOk "foo" lease0).2 (resp200 "l") lease1
    "LE" rfl (fun _ => rfl) rfl rfl

/-- C8: for all four operations, any transport-level success whose
status is not exactly 200 (201, 204, 400, 404, 500, ...) yields the
synthesized HTTP error and no decoded result. -/
theorem only_status_200_succeeds (m : RemoteManager) (env : Env)
    (network : String) (attrs : LeaseAttrs) (lease : Lease) (cursor : GoVal)
    (resp : HttpResponse) (ba bl : String)
    (ht : ∀ q, env.transport q = Except.ok resp)
    (hs : resp.statusCode ≠ 200)
    (hma : env.marshalAttrs attrs = Except.ok ba)
    (hml : env.marshalLease lease = Except.ok bl)
    (hcur : cursor = GoVal.nil ∨ ∃ s, cursor = GoVal.str s) :
    ((GetNetworkConfig m env network).err = some (httpError resp) ∧
      (GetNetworkConfig m env network).value = none) ∧
    ((AcquireLease m env network attrs).err = some (httpError resp) ∧
      (AcquireLease m env network attrs).value = none) ∧
    ((RenewLease m env network lease).err = some (httpError resp) ∧
      (RenewLease m env network lease).value = lease) ∧
    ((WatchLeases m env network cursor).err = some (httpError resp) ∧
      (WatchLeases m env network cursor).value = emptyWatchResult) := by
  refine ⟨?_, ?_, ?_, ?_⟩
  · constructor <;> simp [GetNetworkConfig, ht, hs]
  · constructor <;> simp [AcquireLease, hma, ht, hs]
  · constructor <;> simp [RenewLease, hml, ht, hs]
  · have hfetch : ∀ url, (WatchLeasesFetch env url).err = some (httpError resp) ∧
        (WatchLeasesFetch env url).value = emptyWatchResult := by
      intro url
      constructor <;> simp [WatchLeasesFetch, ht, hs]
    rcases hcur with h | ⟨s, h⟩ <;> subst h <;> simp [WatchLeases, hfetch]

/-- Witness for `only_status_200_succeeds`: a 404 response fails all
four operations. -/
theorem only_status_200_succeeds_witness :
    ((GetNetworkConfig ⟨"http://h/v1"⟩ env404 "foo").err =
        some (httpError resp404) ∧
      (GetNetworkConfig ⟨"http://h/v1"⟩ env404 "foo").value = none) ∧
    ((AcquireLease ⟨"http://h/v1"⟩ env404 "foo" attrs0).err =
        some (httpError resp404) ∧
      (AcquireLease ⟨"http://h/v1"⟩ env404 "foo" attrs0).value = none) ∧
    ((RenewLease ⟨"http://h/v1"⟩ env404 "foo" lease0).err =
        some (httpError resp404) ∧
      (RenewLease ⟨"http://h/v1"⟩ env404 "foo" lease0).value = lease0) ∧
    ((WatchLeases ⟨"http://h/v1"⟩ env404 "foo" GoVal.nil).err =
        some (httpError resp404) ∧
      (WatchLeases ⟨"http://h/v1"⟩ env404 "foo" GoVal.nil).value =
        emptyWatchResult) :=
  only_status_200_succeeds ⟨"http://h/v1"⟩ env404 "foo" attrs0 lease0 GoVal.nil
    resp404 "AT" "LE" (fun _ => rfl) (by decide) rfl rfl (Or.inl rfl)

/-- C9: on a non-200 response the synthesized error is the status line
followed by the eagerly-read body text (joined by `": "`, per
`fmt.Errorf("%v: %v", ...)`), and when reading the body itself fails the
read failure is returned as the error instead. -/
theorem httpError_status_and_body (m : RemoteManager) (env : Env)
    (network : String) (resp : HttpResponse)
    (ht : ∀ q, env.transport q = Except.ok resp)
    (hs : resp.statusCode ≠ 200) :
    (GetNetworkConfig m env network).err = some (httpError resp) ∧
    (resp.bodyReadErr = none →
      httpError resp = resp.status ++ ": " ++ resp.body) ∧
    (∀ e, resp.bodyReadErr = some e → httpError resp = e) := by
  refine ⟨by simp [GetNetworkConfig, ht, hs], ?_, ?_⟩
  · intro h; simp [httpError, h]
  · intro e h; simp [httpError, h]

/-- Witness for `httpError_status_and_body`: the 404 response produces
the message `404 Not Found: no such network`. -/
theorem httpError_status_and_body_witness :
    (GetNetworkConfig ⟨"http://h/v1"⟩ env404 "foo").err =
      some (httpError resp404) ∧
    (resp404.bodyReadErr = none →
      httpError resp404 = resp404.status ++ ": " ++ resp404.body) ∧
    (∀ e, resp404.bodyReadErr = some e → httpError resp404 = e) :=
  httpError_status_and_body ⟨"http://h/v1"⟩ env404 "foo" resp404
    (fun _ => rfl) (by decide)

/-- C10: `GetNetworkConfig`, `AcquireLease` and `RenewLease` close the
response body on every return path on which a response was obtained,
while `WatchLeases` never closes it on any such path. -/
theorem response_body_close_discipline (m : RemoteManager) (env : Env)
    (network : String) (attrs : LeaseAttrs) (lease : Lease) (cursor : GoVal) :
    ((GetNetworkConfig m env network).closed = none ∨
      (GetNetworkConfig m env network).closed = some true) ∧
    ((AcquireLease m env network attrs).closed = none ∨
      (AcquireLease m env network attrs).closed = some true) ∧
    ((RenewLease m env network lease).closed = none ∨
      (RenewLease m env network lease).closed = some true) ∧
    ((WatchLeases m env network cursor).closed = none ∨
      (WatchLeases m env network cursor).closed = some false) := by
  refine ⟨?_, ?_, ?_, ?_⟩
  · cases htr : env.transport ⟨"GET", mkurl m network ["config"], none, none⟩ with
    | error e => left; simp [GetNetworkConfig, htr]
    | ok resp =>
      by_cases hsc : resp.statusCode ≠ 200
      · right; simp [GetNetworkConfig, htr, hsc]
      · cases hd : env.decodeConfig resp.body <;> right <;>
          simp [GetNetworkConfig, htr, hsc, hd]
  · cases hm : env.marshalAttrs attrs with
    | error e => left; simp [AcquireLease, hm]
    | ok body =>
      cases htr : env.transport ⟨"POST", mkurl m network ["leases/"],
          some "application/json", some body⟩ with
      | error e => left; simp [AcquireLease, hm, htr]
      | ok resp =>
        by_cases hsc : resp.statusCode ≠ 200
        · right; simp [AcquireLease, hm, htr, hsc]
        · cases hd : env.decodeLease resp.body <;> right <;>
            simp [AcquireLease, hm, htr, hsc, hd]
  · cases hm : env.marshalLease lease with
    | error e => left; simp [RenewLease, hm]
    | ok body =>
      cases htr : env.transport ⟨"PUT", mkurl m network ["leases", lease.Key],
          some "application/json", some body⟩ with
      | error e => left; simp [RenewLease, hm, htr]
      | ok resp =>
        by_cases hsc : resp.statusCode ≠ 200
        · right; simp [RenewLease, hm, htr, hsc]
        · cases hd : env.decodeLease resp.body <;> right <;>
            simp [RenewLease, hm, htr, hsc, hd]
  · have hfetch : ∀ url, (WatchLeasesFetch env url).closed = none ∨
        (WatchLeasesFetch env url).closed = some false := by
      intro url
      cases htr : env.transport ⟨"GET", url, none, none⟩ with
      | error e => left; simp [WatchLeasesFetch, htr]
      | ok resp =>
        by_cases hsc : resp.statusCode ≠ 200
        · right; simp [WatchLeasesFetch, htr, hsc]
        · cases hd : env.decodeWatchResult resp.body with
          | error e => right; simp [WatchLeasesFetch, htr, hsc, hd]
          | ok wr =>
            cases hcw : wr.Cursor <;> right <;>
              simp [WatchLeasesFetch, htr, hsc, hd, hcw]
    cases cursor <;> simp [WatchLeases] <;> exact hfetch _

/-! ## C2: the AcquireLease request URL

Go's `path.Join` Cleans its result, and `path.Clean` strips a trailing
separator, so the `"leases/"` element of `mkurl(network, "leases/")`
loses its trailing `/`. -/

/-- C2 as stated is false: `AcquireLease` does NOT issue its POST to
`{base}/{network}/leases/` with a trailing separator.  At base
`http://h/v1` and network `foo` the issued URL is
`http://h/v1/foo/leases`, without the trailing separator. -/
theorem AcquireLease_trailing_slash_cex :
    ¬ (∀ (m : RemoteManager) (env : Env) (network : String)
        (attrs : LeaseAttrs) (b : String), network ≠ "" →
        env.marshalAttrs attrs = Except.ok b →
        (AcquireLease m env network attrs).reqs =
          [⟨"POST", m.base ++ "/" ++ network ++ "/leases/",
            some "application/json", some b⟩]) := by
  intro h
  have h0 := h ⟨"http://h/v1"⟩ envDown "foo" attrs0 "AT" (by decide) rfl
  have h1 : (AcquireLease ⟨"http://h/v1"⟩ envDown "foo" attrs0).reqs =
      [⟨"POST", "http://h/v1/foo/leases", some "application/json", some "AT"⟩] := by
    simp [AcquireLease, envDown, constEnv, mkurl, pathJoin, stringsJoin,
      pathClean, cleanLoop, btw, List.dropWhile]
  rw [h1] at h0
  exact absurd h0 (by decide)

theorem data_ne_nil_of_ne_empty (n : String) (h : n ≠ "") : n.data ≠ [] := by
  intro hd
  exact h (String.ext hd)

theorem takeWhile_dropWhile_seg (seg rest : List Char)
    (hseg : ∀ c ∈ seg, c ≠ '/') (hrest : rest = [] ∨ rest.head? = some '/') :
    (seg ++ rest).takeWhile (fun x => x ≠ '/') = seg ∧
    (seg ++ rest).dropWhile (fun x => x ≠ '/') = rest := by
  induction seg with
  | nil =>
    rcases hrest with h | h
    · subst h; simp
    · cases rest with
      | nil => simp
      | cons c t =>
        simp only [List.head?_cons, Option.some.injEq] at h
        subst h
        constructor
        · simp [List.takeWhile_cons]
        · simp [List.dropWhile_cons]
  | cons c cs ih =>
    have hc : c ≠ '/' := hseg c (by simp)
    have ih2 := ih (fun x hx => hseg x (by simp [hx]))
    constructor
    · simpa [List.takeWhile_cons, hc] using ih2.1
    · simpa [List.dropWhile_cons, hc] using ih2.2

/-- One iteration of `cleanLoop` in a rooted path consumes one whole
plain segment (non-empty, free of `/`, neither `.` nor `..`), appending
it to the output behind a separator when one is needed. -/
theorem cleanLoop_seg (seg rest out : List Char) (dotdot : Nat)
    (h1 : seg ≠ []) (h2 : ∀ c ∈ seg, c ≠ '/') (h3 : seg ≠ ['.'])
    (h4 : seg ≠ ['.', '.'])
    (hrest : rest = [] ∨ rest.head? = some '/') :
    cleanLoop true (seg ++ rest) out dotdot =
      cleanLoop true rest
        ((if out.length ≠ 1 then out ++ ['/'] else out) ++ seg) dotdot := by
  obtain ⟨c, cs, rfl⟩ := List.exists_cons_of_ne_nil h1
  have hc : c ≠ '/' := h2 c (by simp)
  have hsplit := takeWhile_dropWhile_seg (c :: cs) rest h2 hrest
  have hd : ¬ (c = '.' ∧ (cs ++ rest = [] ∨ (cs ++ rest).head? = some '/')) := by
    rintro ⟨rfl, hor⟩
    cases cs with
    | nil =>
      exact h3 rfl
    | cons c2 cs2 =>
      rcases hor with h | h
      · simp at h
      · simp only [List.cons_append, List.head?_cons, Option.some.injEq] at h
        exact h2 c2 (by simp) h
  have hdd : ¬ (c = '.' ∧ (cs ++ rest).head? = some '.' ∧
      ((cs ++ rest).tail = [] ∨ (cs ++ rest).tail.head? = some '/')) := by
    rintro ⟨rfl, hh2, hor⟩
    cases cs with
    | nil =>
      rcases hrest with h | h
      · subst h; simp at hh2
      · simp only [List.nil_append] at hh2
        rw [h] at hh2
        simp at hh2
    | cons c2 cs2 =>
      simp only [List.cons_append, List.head?_cons, Option.some.injEq] at hh2
      subst hh2
      cases cs2 with
      | nil =>
        exact h4 rfl
      | cons c3 cs3 =>
        rcases hor with h | h
        · simp at h
        · simp only [List.cons_append, List.tail_cons, List.head?_cons,
            Option.some.injEq] at h
          exact h2 c3 (by simp) h
  rw [List.cons_append, cleanLoop.eq_def]
  simp only []
  rw [dif_neg hc, dif_neg hd, dif_neg hdd]
  rw [← List.cons_append, hsplit.1, hsplit.2]
  simp

/-- `pathClean` on a rooted two-segment path `/{n}/leases/` with a plain
first segment: the trailing separator is removed and nothing else
changes. -/
theorem pathClean_plain_leases (n : String) (hne : n ≠ "")
    (hns : ∀ c ∈ n.data, c ≠ '/') (hd1 : n ≠ ".") (hd2 : n ≠ "..") :
    pathClean ("/" ++ n ++ "/leases/") = "/" ++ n ++ "/leases" := by
  have hdn : n.data ≠ [] := data_ne_nil_of_ne_empty n hne
  have h3 : n.data ≠ ['.'] := fun h => hd1 (String.ext h)
  have h4 : n.data ≠ ['.', '.'] := fun h => hd2 (String.ext h)
  have hdata : ("/" ++ n ++ "/leases/").data =
      '/' :: (n.data ++ "/leases/".data) := by
    rw [String.data_append, slash_append_data]
    simp
  have hne' : ("/" ++ n ++ "/leases/") ≠ "" := by
    intro h
    have := congrArg String.data h
    rw [hdata] at this
    simp at this
  rw [pathClean]
  rw [if_neg hne']
  simp only [hdata, List.head?_cons, List.tail_cons, if_pos rfl]
  have e1 : cleanLoop true (n.data ++ "/leases/".data) ['/'] 1 =
      cleanLoop true "/leases/".data (['/'] ++ n.data) 1 := by
    have := cleanLoop_seg n.data "/leases/".data ['/'] 1 hdn hns h3 h4
      (Or.inr rfl)
    simpa using this
  have e2 : cleanLoop true "/leases/".data (['/'] ++ n.data) 1 =
      cleanLoop true "leases/".data ('/' :: n.data) 1 := by
    rw [show ("/leases/".data : List Char) = '/' :: "leases/".data from rfl]
    rw [cleanLoop.eq_def]
    simp
  have e3 : cleanLoop true "leases/".data ('/' :: n.data) 1 =
      cleanLoop true ['/'] (('/' :: n.data) ++ ['/'] ++ "leases".data) 1 := by
    rw [show ("leases/".data : List Char) = "leases".data ++ ['/'] from rfl]
    have hlen : ('/' :: n.data).length ≠ 1 := by
      simp only [List.length_cons, ne_eq]
      intro h
      have h0 : n.data.length = 0 := by omega
      exact hdn (List.length_eq_zero.mp h0)
    have := cleanLoop_seg "leases".data ['/'] ('/' :: n.data) 1
      (by decide) (by decide) (by decide) (by decide) (Or.inr rfl)
    rw [this, if_pos hlen]
  have e4 : cleanLoop true ['/'] (('/' :: n.data) ++ ['/'] ++ "leases".data) 1 =
      ('/' :: n.data) ++ ['/'] ++ "leases".data := by
    simp [cleanLoop]
  rw [e1, e2, e3, e4]
  rw [if_neg (by simp)]
  apply String.ext
  simp only [String.data_append, slash_append_data]
  simp [show ("/leases".data : List Char) = '/' :: "leases".data from rfl]

/-- C2 (amended): for every plain non-empty network identifier (free of
`/`, not `.` or `..`), when attrs serialization succeeds with payload
`b`, `AcquireLease` issues exactly one request: a POST to
`{base}/{network}/leases` — the trailing separator of the source's
`"leases/"` element is removed by `path.Join`'s cleaning — with JSON
content type and `b` as the body. -/
theorem AcquireLease_request (m : RemoteManager) (env : Env) (network : String)
    (attrs : LeaseAttrs) (b : String) (hne : network ≠ "")
    (hns : ∀ c ∈ network.data, c ≠ '/') (hd1 : network ≠ ".")
    (hd2 : network ≠ "..")
    (hm : env.marshalAttrs attrs = Except.ok b) :
    (AcquireLease m env network attrs).reqs =
      [⟨"POST", m.base ++ "/" ++ network ++ "/leases",
        some "application/json", some b⟩] := by
  have hh : network.data.head? ≠ some '/' := by
    cases hq : network.data with
    | nil => simp
    | cons c t =>
      have : c ≠ '/' := hns c (by rw [hq]; simp)
      simp [this]
  have hurl : mkurl m network ["leases/"] =
      m.base ++ "/" ++ network ++ "/leases" := by
    rw [mkurl]
    simp only [if_neg hne, if_neg hh]
    have hpj : pathJoin ["/" ++ network, "leases/"] =
        pathClean ("/" ++ network ++ "/leases/") := by
      have hdw : (["/" ++ network, "leases/"].dropWhile (fun e => e = "")) =
          ["/" ++ network, "leases/"] := by
        simp [List.dropWhile, slash_append_ne_empty network]
      rw [pathJoin, hdw]
      show pathClean (stringsJoin "/" ["/" ++ network, "leases/"]) = _
      rw [show stringsJoin "/" ["/" ++ network, "leases/"] =
          ("/" ++ network) ++ "/" ++ "leases/" from rfl]
      congr 1
      apply String.ext
      simp [String.data_append]
    rw [hpj, pathClean_plain_leases network hne hns hd1 hd2]
    apply String.ext
    simp [String.data_append]
  simp only [AcquireLease, hurl, hm]
  cases htr : env.transport ⟨"POST", m.base ++ "/" ++ network ++ "/leases",
      some "application/json", some b⟩ with
  | error e => simp
  | ok resp =>
    by_cases hsc : resp.statusCode ≠ 200 <;>
      cases hd : env.decodeLease resp.body <;> simp [hsc, hd]

/-- Witness for `AcquireLease_request` at base `http://h/v1` and network
`foo`. -/
theorem AcquireLease_request_witness :
    (AcquireLease ⟨"http://h/v1"⟩ envDown "foo" attrs0).reqs =
      [⟨"POST", "http://h/v1" ++ "/" ++ "foo" ++ "/leases",
        some "application/json", some "AT"⟩] :=
  AcquireLease_request ⟨"http://h/v1"⟩ envDown "foo" attrs0 "AT" (by decide)
    (by decide) (by decide) (by decide) rfl

/-! ## C1: what the `httpDo` interleaving semantics guarantees -/

/-- Invariant of the `httpDo` transition system: the channel only ever
holds the goroutine's value `r` and only after the send, and a returned
main routine has seen the send, left the channel drained, and carries
one of the two possible results. -/
def hInv (r : Nat) (s : HSt) : Prop :=
  (∀ v, s.chan = some v → v = r ∧ s.sent = true) ∧
  (∀ res, s.main = HMain.done res → s.sent = true ∧ s.chan = none ∧
    (res = HRes.ctxErr ∨ res = HRes.opRes r))

theorem hInit_inv (r : Nat) : hInv r hInit := by
  constructor
  · intro v h; simp [hInit] at h
  · intro res h; simp [hInit] at h

theorem hStep_inv (r : Nat) (a : HAct) (s s' : HSt)
    (h : hStep r a s = some s') (hi : hInv r s) : hInv r s' := by
  cases a with
  | cancel =>
    by_cases hc : s.ctxDone
    · simp [hStep, hc] at h
    · simp [hStep, hc] at h
      subst h
      exact ⟨hi.1, hi.2⟩
  | gsend =>
    by_cases hc : s.sent
    · simp [hStep, hc] at h
    · simp [hStep, hc] at h
      subst h
      constructor
      · intro v hv
        simp at hv
        exact ⟨hv.symm, rfl⟩
      · intro res hres
        simp at hres
        exact absurd (hi.2 res hres).1 hc
  | selectCancel =>
    cases hm : s.main with
    | sel =>
      by_cases hc : s.ctxDone
      · simp [hStep, hm, hc] at h
        subst h
        constructor
        · exact hi.1
        · intro res hres; simp at hres
      · simp [hStep, hm, hc] at h
    | draining => simp [hStep, hm] at h
    | done res => simp [hStep, hm] at h
  | drain =>
    cases hm : s.main with
    | draining =>
      cases hch : s.chan with
      | none => simp [hStep, hm, hch] at h
      | some v =>
        simp [hStep, hm, hch] at h
        subst h
        constructor
        · intro w hw; simp at hw
        · intro res hres
          simp at hres
          exact ⟨(hi.1 v hch).2, rfl, Or.inl hres.symm⟩
    | sel => simp [hStep, hm] at h
    | done res => simp [hStep, hm] at h
  | selectRecv =>
    cases hm : s.main with
    | sel =>
      cases hch : s.chan with
      | none => simp [hStep, hm, hch] at h
      | some v =>
        simp [hStep, hm, hch] at h
        subst h
        constructor
        · intro w hw; simp at hw
        · intro res hres
          simp at hres
          exact ⟨(hi.1 v hch).2, rfl,
            Or.inr (by rw [hres.symm, (hi.1 v hch).1])⟩
    | draining => simp [hStep, hm] at h
    | done res => simp [hStep, hm] at h

theorem hRun_inv (r : Nat) (t : List HAct) :
    ∀ (s s' : HSt), hRun r t s = some s' → hInv r s → hInv r s' := by
  induction t with
  | nil =>
    intro s s' h hi
    simp [hRun] at h
    subst h
    exact hi
  | cons a t ih =>
    intro s s' h hi
    cases hst : hStep r a s with
    | none => simp [hRun, hst] at h
    | some s1 =>
      simp [hRun, hst] at h
      exact ih s1 s' h (hStep_inv r a s s1 hst hi)

/-- After `tr.CancelRequest` the main routine is committed: every state
reachable from the draining phase that has returned returned
`ctx.Err()`. -/
theorem hRun_draining (r : Nat) (t : List HAct) :
    ∀ (s s' : HSt) (res : HRes), hRun r t s = some s' →
    s.main = HMain.draining ∨ s.main = HMain.done HRes.ctxErr →
    s'.main = HMain.done res → res = HRes.ctxErr := by
  induction t with
  | nil =>
    intro s s' res h hm hdone
    simp [hRun] at h
    subst h
    rcases hm with h1 | h1 <;> rw [h1] at hdone
    · exact absurd hdone (by simp)
    · simpa using hdone.symm
  | cons a t ih =>
    intro s s' res h hm hdone
    cases hst : hStep r a s with
    | none => simp [hRun, hst] at h
    | some s1 =>
      simp [hRun, hst] at h
      refine ih s1 s' res h ?_ hdone
      cases a with
      | cancel =>
        by_cases hc : s.ctxDone
        · simp [hStep, hc] at hst
        · simp [hStep, hc] at hst
          subst hst
          exact hm
      | gsend =>
        by_cases hc : s.sent
        · simp [hStep, hc] at hst
        · simp [hStep, hc] at hst
          subst hst
          exact hm
      | selectCancel =>
        rcases hm with h1 | h1 <;> simp [hStep, h1] at hst
      | drain =>
        rcases hm with h1 | h1
        · cases hch : s.chan with
          | none => simp [hStep, h1, hch] at hst
          | some v =>
            simp [hStep, h1, hch] at hst
            subst hst
            exact Or.inr rfl
        · simp [hStep, h1] at hst
      | selectRecv =>
        rcases hm with h1 | h1 <;> simp [hStep, h1] at hst

/-- If the main routine executes its `select` before the goroutine has
delivered the transport result, the cancellation branch is the only
enabled one, and the call is committed to returning `ctx.Err()`. -/
theorem hRun_select_first (r : Nat) (t : List HAct) :
    ∀ (s s' : HSt) (res : HRes), hRun r t s = some s' →
    s.main = HMain.sel → s.chan = none → selectBeforeSendB t = true →
    s'.main = HMain.done res → res = HRes.ctxErr := by
  induction t with
  | nil =>
    intro s s' res h hsel hchan hb hdone
    simp [selectBeforeSendB] at hb
  | cons a t ih =>
    intro s s' res h hsel hchan hb hdone
    cases hst : hStep r a s with
    | none => simp [hRun, hst] at h
    | some s1 =>
      simp [hRun, hst] at h
      cases a with
      | cancel =>
        by_cases hc : s.ctxDone
        · simp [hStep, hc] at hst
        · simp [hStep, hc] at hst
          subst hst
          exact ih _ s' res h hsel hchan
            (by simpa [selectBeforeSendB] using hb) hdone
      | gsend => simp [selectBeforeSendB] at hb
      | selectCancel =>
        by_cases hc : s.ctxDone
        · simp [hStep, hsel, hc] at hst
          subst hst
          exact hRun_draining r t _ s' res h (Or.inl rfl) hdone
        · simp [hStep, hsel, hc] at hst
      | drain => simp [hStep, hsel] at hst
      | selectRecv => simp [hStep, hsel, hchan] at hst

/-- C1 as stated is false: with the transport result arriving after the
cancellation but before the `select` executes, both select cases are
ready and Go may take the receive case, so `httpDo` can return the
operation's result even though the context was done strictly before the
transport call completed.  Concrete interleaving: cancel, then the
goroutine's send, then the select takes the receive branch. -/
theorem httpDo_cancel_first_cex :
    ¬ (∀ (r : Nat) (t : List HAct) (s : HSt) (res : HRes),
        hRun r t hInit = some s → s.main = HMain.done res →
        cancelThenSendB t = true →
        res = HRes.ctxErr ∧ s.sent = true ∧ s.chan = none) := by
  intro h
  have h0 := h 7 [HAct.cancel, HAct.gsend, HAct.selectRecv]
    ⟨true, true, none, HMain.done (HRes.opRes 7)⟩ (HRes.opRes 7)
    (by decide) rfl (by decide)
  exact absurd h0.1 (by decide)

/-- C1 (amended): in every interleaving of `httpDo` that returns, the
goroutine has delivered its result and the channel has been drained
before the return, and exactly one of the operation result and the
cancellation error is returned; and whenever the `select` executes
before the goroutine has delivered the transport result (rather than
merely after cancellation fired), the call returns the cancellation's
own error `ctx.Err()`. -/
theorem httpDo_select_semantics (r : Nat) (t : List HAct) (s : HSt) (res : HRes)
    (h : hRun r t hInit = some s) (hdone : s.main = HMain.done res) :
    (s.sent = true ∧ s.chan = none) ∧
    (res = HRes.ctxErr ∨ res = HRes.opRes r) ∧
    (selectBeforeSendB t = true → res = HRes.ctxErr) := by
  have hi := hRun_inv r t hInit s h (hInit_inv r)
  have h2 := hi.2 res hdone
  exact ⟨⟨h2.1, h2.2.1⟩, h2.2.2,
    fun hb => hRun_select_first r t hInit s res h rfl rfl hb hdone⟩

/-- Witness for `httpDo_select_semantics`: the interleaving cancel,
select (cancel branch), send, drain returns `ctx.Err()` with the
goroutine finished and the channel drained. -/
theorem httpDo_select_semantics_witness :
    ((⟨true, true, none, HMain.done HRes.ctxErr⟩ : HSt).sent = true ∧
      (⟨true, true, none, HMain.done HRes.ctxErr⟩ : HSt).chan = none) ∧
    (HRes.ctxErr = HRes.ctxErr ∨ HRes.ctxErr = HRes.opRes 7) ∧
    (selectBeforeSendB
        [HAct.cancel, HAct.selectCancel, HAct.gsend, HAct.drain] = true →
      HRes.ctxErr = HRes.ctxErr) :=
  httpDo_select_semantics 7
    [HAct.cancel, HAct.selectCancel, HAct.gsend, HAct.drain]
    ⟨true, true, none, HMain.done HRes.ctxErr⟩ HRes.ctxErr (by decide) rfl

end Flannel
